import Mathlib

/-!
Verification of the technical-indicator library in
WQUcapstoneCode/technical/technical.py.

The pandas pipeline works on float series in which missing values are NaN
and division by zero produces NaN or a signed infinity.  We embed a float
value as `FVal`: either NaN, a signed infinity, or a finite rational.
Comparisons follow IEEE semantics: every comparison against NaN is false.
A pandas Series indexed by the (strictly increasing) timestamps of the
input price series is embedded as a function from the row position to
`FVal`; every source operation (shift, rolling window aggregations with
the default min_periods, exponentially weighted means, elementwise
arithmetic) is translated on that representation.
-/

inductive FVal where
  | nan : FVal
  | pinf : FVal
  | ninf : FVal
  | fin : ℚ → FVal
deriving DecidableEq, Repr

open FVal

/-- IEEE strict less-than: any comparison involving NaN is false. -/
def flt : FVal → FVal → Bool
  | fin a, fin b => decide (a < b)
  | fin _, pinf => true
  | ninf, fin _ => true
  | ninf, pinf => true
  | _, _ => false

/-- Strict greater-than, `x > y` in the source. -/
def fgt (x y : FVal) : Bool := flt y x

def isNan : FVal → Bool
  | nan => true
  | _ => false

def fneg : FVal → FVal
  | nan => nan
  | pinf => ninf
  | ninf => pinf
  | fin a => fin (-a)

def fadd : FVal → FVal → FVal
  | nan, _ => nan
  | _, nan => nan
  | pinf, ninf => nan
  | ninf, pinf => nan
  | pinf, _ => pinf
  | _, pinf => pinf
  | ninf, _ => ninf
  | _, ninf => ninf
  | fin a, fin b => fin (a + b)

def fsub (x y : FVal) : FVal := fadd x (fneg y)

def fmul : FVal → FVal → FVal
  | nan, _ => nan
  | _, nan => nan
  | fin a, fin b => fin (a * b)
  | fin a, pinf => if 0 < a then pinf else if a < 0 then ninf else nan
  | pinf, fin a => if 0 < a then pinf else if a < 0 then ninf else nan
  | fin a, ninf => if 0 < a then ninf else if a < 0 then pinf else nan
  | ninf, fin a => if 0 < a then ninf else if a < 0 then pinf else nan
  | pinf, pinf => pinf
  | pinf, ninf => ninf
  | ninf, pinf => ninf
  | ninf, ninf => pinf

/-- IEEE division: a nonzero finite value divided by zero is a signed
infinity, zero divided by zero is NaN. -/
def fdiv : FVal → FVal → FVal
  | nan, _ => nan
  | _, nan => nan
  | fin a, fin b =>
      if b = 0 then (if 0 < a then pinf else if a < 0 then ninf else nan)
      else fin (a / b)
  | fin _, pinf => fin 0
  | fin _, ninf => fin 0
  | pinf, fin b => if 0 ≤ b then pinf else ninf
  | ninf, fin b => if 0 ≤ b then ninf else pinf
  | pinf, _ => nan
  | ninf, _ => nan

def fabs : FVal → FVal
  | nan => nan
  | pinf => pinf
  | ninf => pinf
  | fin a => fin |a|

def fmax (x y : FVal) : FVal := if flt x y then y else x

def fmin (x y : FVal) : FVal := if flt y x then y else x

/-- Float square root; NaN on negative input.  The rational square root
agrees with the float one exactly whenever the argument is a perfect
square of a rational, which covers every standard-deviation value the
claims exercise. -/
def sqrtF : FVal → FVal
  | nan => nan
  | pinf => pinf
  | ninf => nan
  | fin a => if a < 0 then nan else fin (Rat.sqrt a)

/-- The input price series as a float series: one finite value per row. -/
def toSeries (close : List ℚ) : ℕ → FVal :=
  fun i => if i < close.length then fin (close.getD i 0) else nan

/-- Series.shift(k): row i reads row i - k, NaN for the first k rows. -/
def shiftS (k : ℕ) (s : ℕ → FVal) : ℕ → FVal :=
  fun i => if i < k then nan else s (i - k)

/-- Series.rolling(w) aggregation with the default min_periods = w: NaN
during warm-up and whenever the window contains a NaN, otherwise the
aggregate of the w trailing values. -/
def rollingAgg (op : List FVal → FVal) (w : ℕ) (s : ℕ → FVal) : ℕ → FVal :=
  fun i =>
    if i + 1 < w then nan
    else
      let vals := (List.range w).map (fun j => s (i - j))
      if vals.any isNan then nan else op vals

def maxOp : List FVal → FVal
  | [] => nan
  | v :: rest => rest.foldl fmax v

def minOp : List FVal → FVal
  | [] => nan
  | v :: rest => rest.foldl fmin v

def meanOp (w : ℕ) (vals : List FVal) : FVal :=
  fdiv (vals.foldl fadd (fin 0)) (fin w)

/-- Population standard deviation of the window (ddof = 0). -/
def stdOp (w : ℕ) (vals : List FVal) : FVal :=
  let m := meanOp w vals
  sqrtF (fdiv ((vals.map (fun x => fmul (fsub x m) (fsub x m))).foldl fadd (fin 0)) (fin w))

def rollingMax (w : ℕ) (s : ℕ → FVal) : ℕ → FVal := rollingAgg maxOp w s

def rollingMin (w : ℕ) (s : ℕ → FVal) : ℕ → FVal := rollingAgg minOp w s

def rollingMean (w : ℕ) (s : ℕ → FVal) : ℕ → FVal := rollingAgg (meanOp w) w s

def rollingStd (w : ℕ) (s : ℕ → FVal) : ℕ → FVal := rollingAgg (stdOp w) w s

/-- Series.diff(): first difference, NaN on the first row. -/
def diffS (s : ℕ → FVal) : ℕ → FVal :=
  fun i => fsub (s i) (shiftS 1 s i)

/-- Series.ewm(...).mean() with the pandas defaults adjust = true and
min_periods = 0: at row t the weighted mean of the non-NaN values so
far, the value at row i carrying weight (1 - a) ^ (t - i). -/
def ewmMean (a : ℚ) (s : ℕ → FVal) : ℕ → FVal :=
  fun t =>
    let idxs := (List.range (t + 1)).filter (fun i => !(isNan (s i)))
    if idxs.isEmpty then nan
    else
      fdiv (idxs.foldl (fun acc i => fadd acc (fmul (fin ((1 - a) ^ (t - i))) (s i))) (fin 0))
           (fin (idxs.foldl (fun acc i => acc + (1 - a) ^ (t - i)) 0))

/-!
The shared signal machinery of `_Indicator._switch`: the two crossing
masks give the sparse event series (value +1 on up events, -1 on down
events), which is assigned to the side column and forward-filled.  A row
of the side column is `none` (float NaN) while no event has occurred.
-/

/-- The sparse side column right after the concat assignment: +1 at up
events, -1 at down events, missing elsewhere. -/
def side0 (up down : ℕ → Bool) (t : ℕ) : Option ℤ :=
  if up t then some 1 else if down t then some (-1) else none

/-- Series.ffill() over the sparse event column. -/
def sideFF (up down : ℕ → Bool) : ℕ → Option ℤ
  | 0 => side0 up down 0
  | t + 1 =>
    match side0 up down (t + 1) with
    | some v => some v
    | none => sideFF up down t

/-- The most recent event at-or-before row t, if any. -/
def lastSwitch (up down : ℕ → Bool) (t : ℕ) : Option ℕ :=
  ((List.range (t + 1)).reverse).find? (fun j => up j || down j)

/-- The side value described by the specification: the sign of the most
recent event at-or-before the row, undefined when no event has occurred. -/
def specSide (up down : ℕ → Bool) (t : ℕ) : Option ℤ :=
  (lastSwitch up down t).map (fun j => if up j then 1 else -1)

/-- The event series `df.price[mask]` returned by a crossing detector:
the rows of the table where the mask holds, with the price recorded. -/
def switchList (n : ℕ) (mask : ℕ → Bool) (px : ℕ → FVal) : List (ℕ × FVal) :=
  ((List.range n).filter mask).map (fun i => (i, px i))

/-!
The abstract base class `_Indicator`: its static crossing detectors only
raise ValueError, they never return an event series.
-/

namespace Indicator

/-- Source `_Indicator._get_up_cross`: always raises. -/
def get_up_cross {α β : Type} (_df : α) : Except String β :=
  Except.error "Please implement this class in child classes"

/-- Source `_Indicator._get_down_cross`: always raises. -/
def get_down_cross {α β : Type} (_df : α) : Except String β :=
  Except.error "Please implement this class in child classes"

end Indicator

/-!
Williams %R, class `wr` in the source.
-/

namespace wr

def price (close : List ℚ) : ℕ → FVal := toSeries close

/-- Column wr = 100 * (high - close) / (high - low) over a rolling window. -/
def wrCol (close : List ℚ) (window : ℕ) : ℕ → FVal :=
  fun i =>
    let p := toSeries close
    let low := rollingMin window p
    let high := rollingMax window p
    fmul (fin 100) (fdiv (fsub (high i) (p i)) (fsub (high i) (low i)))

/-- Mask of `_get_up_cross`: wr.shift(1) > 20 and wr < 20. -/
def upMask (close : List ℚ) (window : ℕ) (i : ℕ) : Bool :=
  fgt (shiftS 1 (wrCol close window) i) (fin 20) && flt (wrCol close window i) (fin 20)

/-- Mask of `_get_down_cross`: wr.shift(1) < 80 and wr > 80. -/
def downMask (close : List ℚ) (window : ℕ) (i : ℕ) : Bool :=
  flt (shiftS 1 (wrCol close window) i) (fin 80) && fgt (wrCol close window i) (fin 80)

def switch_up (close : List ℚ) (window : ℕ) : List (ℕ × FVal) :=
  switchList close.length (upMask close window) (price close)

def switch_down (close : List ℚ) (window : ℕ) : List (ℕ × FVal) :=
  switchList close.length (downMask close window) (price close)

def side (close : List ℚ) (window : ℕ) : ℕ → Option ℤ :=
  sideFF (upMask close window) (downMask close window)

end wr

/-!
Exponentially weighted moving-average crossover, class `EMA`.  The source
calls close.ewm(fast_ma).mean(): the first positional parameter of ewm is
the center of mass, so the decay is a = 1 / (1 + fast_ma).
-/

namespace EMA

def price (close : List ℚ) : ℕ → FVal := toSeries close

def fast (close : List ℚ) (fast_ma : ℚ) : ℕ → FVal :=
  ewmMean (1 / (1 + fast_ma)) (toSeries close)

def slow (close : List ℚ) (slow_ma : ℚ) : ℕ → FVal :=
  ewmMean (1 / (1 + slow_ma)) (toSeries close)

/-- Mask of `_get_up_cross`: fast.shift(1) < slow.shift(1) and fast > slow. -/
def upMask (close : List ℚ) (fast_ma slow_ma : ℚ) (i : ℕ) : Bool :=
  flt (shiftS 1 (fast close fast_ma) i) (shiftS 1 (slow close slow_ma) i) &&
  fgt (fast close fast_ma i) (slow close slow_ma i)

/-- Mask of `_get_down_cross`: fast.shift(1) > slow.shift(1) and fast < slow. -/
def downMask (close : List ℚ) (fast_ma slow_ma : ℚ) (i : ℕ) : Bool :=
  fgt (shiftS 1 (fast close fast_ma) i) (shiftS 1 (slow close slow_ma) i) &&
  flt (fast close fast_ma i) (slow close slow_ma i)

/-- The crossing detectors of this class record df.fast at the event. -/
def switch_up (close : List ℚ) (fast_ma slow_ma : ℚ) : List (ℕ × FVal) :=
  switchList close.length (upMask close fast_ma slow_ma) (fast close fast_ma)

def switch_down (close : List ℚ) (fast_ma slow_ma : ℚ) : List (ℕ × FVal) :=
  switchList close.length (downMask close fast_ma slow_ma) (fast close fast_ma)

def side (close : List ℚ) (fast_ma slow_ma : ℚ) : ℕ → Option ℤ :=
  sideFF (upMask close fast_ma slow_ma) (downMask close fast_ma slow_ma)

end EMA

/-!
Bollinger bands, class `BollingerBands`.
-/

namespace BollingerBands

def price (close : List ℚ) : ℕ → FVal := toSeries close

def average (close : List ℚ) (window : ℕ) : ℕ → FVal :=
  rollingMean window (toSeries close)

def standard_deviation (close : List ℚ) (window : ℕ) : ℕ → FVal :=
  rollingStd window (toSeries close)

def upper_band (close : List ℚ) (window : ℕ) (numsd : ℚ) : ℕ → FVal :=
  fun i => fadd (average close window i) (fmul (standard_deviation close window i) (fin numsd))

def lower_band (close : List ℚ) (window : ℕ) (numsd : ℚ) : ℕ → FVal :=
  fun i => fsub (average close window i) (fmul (standard_deviation close window i) (fin numsd))

/-- Mask of `_get_up_cross`: price.shift(1) > lower.shift(1) and price < lower. -/
def upMask (close : List ℚ) (window : ℕ) (numsd : ℚ) (i : ℕ) : Bool :=
  fgt (shiftS 1 (price close) i) (shiftS 1 (lower_band close window numsd) i) &&
  flt (price close i) (lower_band close window numsd i)

/-- Mask of `_get_down_cross`: price.shift(1) < upper.shift(1) and price > upper. -/
def downMask (close : List ℚ) (window : ℕ) (numsd : ℚ) (i : ℕ) : Bool :=
  flt (shiftS 1 (price close) i) (shiftS 1 (upper_band close window numsd) i) &&
  fgt (price close i) (upper_band close window numsd i)

def switch_up (close : List ℚ) (window : ℕ) (numsd : ℚ) : List (ℕ × FVal) :=
  switchList close.length (upMask close window numsd) (price close)

def switch_down (close : List ℚ) (window : ℕ) (numsd : ℚ) : List (ℕ × FVal) :=
  switchList close.length (downMask close window numsd) (price close)

def side (close : List ℚ) (window : ℕ) (numsd : ℚ) : ℕ → Option ℤ :=
  sideFF (upMask close window numsd) (downMask close window numsd)

end BollingerBands

/-!
Commodity channel index, class `CCI`: a raw indicator table only, no
crossing detectors and no side column.
-/

namespace CCI

def price (close : List ℚ) : ℕ → FVal := toSeries close

def CCICol (close : List ℚ) (window : ℕ) : ℕ → FVal :=
  fun i =>
    let p := toSeries close
    let ma := rollingMean window p
    let meanDev := rollingMean window (fun j => fabs (fsub (p j) (ma j)))
    fdiv (fsub (p i) (ma i)) (fmul (fin (15 / 1000)) (meanDev i))

end CCI

/-!
Stochastic oscillator, class `Stochastic`.  The source columns %K and %D
are named K and D here.
-/

namespace Stochastic

def price (close : List ℚ) : ℕ → FVal := toSeries close

/-- Column %K = 100 * (close - low) / (high - low). -/
def K (close : List ℚ) (window : ℕ) : ℕ → FVal :=
  fun i =>
    let p := toSeries close
    let low := rollingMin window p
    let high := rollingMax window p
    fmul (fin 100) (fdiv (fsub (p i) (low i)) (fsub (high i) (low i)))

/-- Column %D: rolling mean of %K over stoch_window. -/
def D (close : List ℚ) (window stoch_window : ℕ) : ℕ → FVal :=
  rollingMean stoch_window (K close window)

/-- Mask of `_get_up_cross`: %K < 20, %D.shift(1) < %K.shift(1), %D > %K. -/
def upMask (close : List ℚ) (window stoch_window : ℕ) (i : ℕ) : Bool :=
  flt (K close window i) (fin 20) &&
  flt (shiftS 1 (D close window stoch_window) i) (shiftS 1 (K close window) i) &&
  fgt (D close window stoch_window i) (K close window i)

/-- Mask of `_get_down_cross`: %K > 80, %D.shift(1) > %K.shift(1), %D < %K. -/
def downMask (close : List ℚ) (window stoch_window : ℕ) (i : ℕ) : Bool :=
  fgt (K close window i) (fin 80) &&
  fgt (shiftS 1 (D close window stoch_window) i) (shiftS 1 (K close window) i) &&
  flt (D close window stoch_window i) (K close window i)

def switch_up (close : List ℚ) (window stoch_window : ℕ) : List (ℕ × FVal) :=
  switchList close.length (upMask close window stoch_window) (price close)

def switch_down (close : List ℚ) (window stoch_window : ℕ) : List (ℕ × FVal) :=
  switchList close.length (downMask close window stoch_window) (price close)

def side (close : List ℚ) (window stoch_window : ℕ) : ℕ → Option ℤ :=
  sideFF (upMask close window stoch_window) (downMask close window stoch_window)

end Stochastic

/-!
Ichimoku Kinko Hyo, class `Ichimoku`.
-/

namespace Ichimoku

def price (close : List ℚ) : ℕ → FVal := toSeries close

/-- The static helper `_sen`: midpoint of the rolling high and low. -/
def sen (ds : ℕ → FVal) (window : ℕ) : ℕ → FVal :=
  fun i => fdiv (fadd (rollingMax window ds i) (rollingMin window ds i)) (fin 2)

def tenka_sen (close : List ℚ) (tenka_sen_window : ℕ) : ℕ → FVal :=
  sen (toSeries close) tenka_sen_window

def kijun_sen (close : List ℚ) (kijun_sen_window : ℕ) : ℕ → FVal :=
  sen (toSeries close) kijun_sen_window

/-- senkou_span_a = ((tenka_sen + kijun_sen) / 2).shift(kijun_sen_window). -/
def senkou_span_a (close : List ℚ) (tenka_sen_window kijun_sen_window : ℕ) : ℕ → FVal :=
  shiftS kijun_sen_window
    (fun i => fdiv (fadd (tenka_sen close tenka_sen_window i) (kijun_sen close kijun_sen_window i)) (fin 2))

/-- senkou_span_b = _sen(close, senkou_window).shift(kijun_sen_window). -/
def senkou_span_b (close : List ℚ) (kijun_sen_window senkou_window : ℕ) : ℕ → FVal :=
  shiftS kijun_sen_window (sen (toSeries close) senkou_window)

/-- chikou_span = price.shift(26), a fixed 26 independent of the parameters. -/
def chikou_span (close : List ℚ) : ℕ → FVal :=
  shiftS 26 (toSeries close)

/-- Mask of `_get_up_cross`: span_a.shift(1) < span_b.shift(1) and span_a > span_b. -/
def upMask (close : List ℚ) (tw kw sw : ℕ) (i : ℕ) : Bool :=
  flt (shiftS 1 (senkou_span_a close tw kw) i) (shiftS 1 (senkou_span_b close kw sw) i) &&
  fgt (senkou_span_a close tw kw i) (senkou_span_b close kw sw i)

/-- Mask of `_get_down_cross`: span_a.shift(1) > span_b.shift(1) and span_a < span_b. -/
def downMask (close : List ℚ) (tw kw sw : ℕ) (i : ℕ) : Bool :=
  fgt (shiftS 1 (senkou_span_a close tw kw) i) (shiftS 1 (senkou_span_b close kw sw) i) &&
  flt (senkou_span_a close tw kw i) (senkou_span_b close kw sw i)

def switch_up (close : List ℚ) (tw kw sw : ℕ) : List (ℕ × FVal) :=
  switchList close.length (upMask close tw kw sw) (price close)

def switch_down (close : List ℚ) (tw kw sw : ℕ) : List (ℕ × FVal) :=
  switchList close.length (downMask close tw kw sw) (price close)

/-- The comparison a: senkou_span_a < price. -/
def cloudA (close : List ℚ) (tw kw : ℕ) (i : ℕ) : Bool :=
  flt (senkou_span_a close tw kw i) (price close i)

/-- The comparison b: price < senkou_span_b. -/
def cloudB (close : List ℚ) (kw sw : ℕ) (i : ℕ) : Bool :=
  flt (price close i) (senkou_span_b close kw sw i)

/-- The override row set (a and b) or (not a and not b). -/
def cloudCond (close : List ℚ) (tw kw sw : ℕ) (i : ℕ) : Bool :=
  (cloudA close tw kw i && cloudB close kw sw i) ||
  (!(cloudA close tw kw i) && !(cloudB close kw sw i))

/-- The side column: the forward-filled event signs, overridden with 0
on every row of the cloud condition. -/
def side (close : List ℚ) (tw kw sw : ℕ) (i : ℕ) : Option ℤ :=
  if cloudCond close tw kw sw i then some 0
  else sideFF (upMask close tw kw sw) (downMask close tw kw sw) i

end Ichimoku

/-!
Relative strength index, class `RSI`.  Here ewm is called with
span = window, so the decay is a = 2 / (window + 1).
-/

namespace RSI

def price (close : List ℚ) : ℕ → FVal := toSeries close

def rtn (close : List ℚ) : ℕ → FVal := diffS (toSeries close)

/-- up = rtn.copy(); up[up < 0] = 0. -/
def upSeries (close : List ℚ) : ℕ → FVal :=
  fun i => if flt (rtn close i) (fin 0) then fin 0 else rtn close i

/-- down = rtn.copy(); down[down > 0] = 0. -/
def downSeries (close : List ℚ) : ℕ → FVal :=
  fun i => if fgt (rtn close i) (fin 0) then fin 0 else rtn close i

def roll_up1 (close : List ℚ) (window : ℕ) : ℕ → FVal :=
  ewmMean (2 / ((window : ℚ) + 1)) (upSeries close)

def roll_down1 (close : List ℚ) (window : ℕ) : ℕ → FVal :=
  ewmMean (2 / ((window : ℚ) + 1)) (fun i => fabs (downSeries close i))

def RS1 (close : List ℚ) (window : ℕ) : ℕ → FVal :=
  fun i => fdiv (roll_up1 close window i) (roll_down1 close window i)

/-- Column RSI = 100 - 100 / (1 + RS1). -/
def RSICol (close : List ℚ) (window : ℕ) : ℕ → FVal :=
  fun i => fsub (fin 100) (fdiv (fin 100) (fadd (fin 1) (RS1 close window i)))

/-- Mask of `_get_up_cross`: RSI.shift(1) > 30 and RSI < 30. -/
def upMask (close : List ℚ) (window : ℕ) (i : ℕ) : Bool :=
  fgt (shiftS 1 (RSICol close window) i) (fin 30) && flt (RSICol close window i) (fin 30)

/-- Mask of `_get_down_cross`: RSI.shift(1) < 70 and RSI > 70. -/
def downMask (close : List ℚ) (window : ℕ) (i : ℕ) : Bool :=
  flt (shiftS 1 (RSICol close window) i) (fin 70) && fgt (RSICol close window i) (fin 70)

def switch_up (close : List ℚ) (window : ℕ) : List (ℕ × FVal) :=
  switchList close.length (upMask close window) (price close)

def switch_down (close : List ℚ) (window : ℕ) : List (ℕ × FVal) :=
  switchList close.length (downMask close window) (price close)

/-- The neutral band override: rows with 30 < RSI < 70 are set to 0 after
the forward fill. -/
def neutralBand (close : List ℚ) (window : ℕ) (i : ℕ) : Bool :=
  fgt (RSICol close window i) (fin 30) && flt (RSICol close window i) (fin 70)

def side (close : List ℚ) (window : ℕ) (i : ℕ) : Option ℤ :=
  if neutralBand close window i then some 0
  else sideFF (upMask close window) (downMask close window) i

end RSI

/-- Modelled from the spec, for comparison with the source definition of
the EMA columns: the words of the spec call fast_ma and slow_ma
"smoothing spans for exponential weighting", which under the pandas span
interpretation means decay a = 2 / (span + 1). -/
def spanEwmMean (close : List ℚ) (span : ℚ) : ℕ → FVal :=
  ewmMean (2 / (span + 1)) (toSeries close)

/-!
Basic facts about the IEEE comparison.
-/

@[simp] theorem flt_nan_left (x : FVal) : flt nan x = false := by cases x <;> rfl

@[simp] theorem flt_nan_right (x : FVal) : flt x nan = false := by cases x <;> rfl

theorem flt_asymm {x y : FVal} (h : flt x y = true) : flt y x = false := by
  cases x <;> cases y <;> simp_all [flt] <;> exact le_of_lt h

theorem flt_trans {x y z : FVal} (hxy : flt x y = true) (hyz : flt y z = true) :
    flt x z = true := by
  cases x <;> cases y <;> cases z <;> simp_all [flt] <;> exact lt_trans hxy hyz

/-- A value cannot be on the small side of a and the large side of b when
a is at most b. -/
theorem flt_chain {x : FVal} {a b : ℚ} (hab : a ≤ b) :
    flt x (fin a) = false ∨ flt (fin b) x = false := by
  cases x with
  | nan => left; rfl
  | pinf => left; rfl
  | ninf => right; rfl
  | fin q =>
      by_cases h : q < a
      · right; simp [flt]; exact le_trans (le_of_lt h) hab
      · left; simp [flt]; exact le_of_not_lt h

/-!
The forward fill of the sparse event column realises the most recent
event at-or-before each row.
-/

theorem sideFF_eq_specSide (up down : ℕ → Bool) (t : ℕ) :
    sideFF up down t = specSide up down t := by
  induction t with
  | zero =>
      cases hu : up 0 <;> cases hd : down 0 <;>
        simp [sideFF, specSide, lastSwitch, side0, List.range_succ, List.find?, hu, hd]
  | succ t ih =>
      have hrev : (List.range (t + 1 + 1)).reverse = (t + 1) :: (List.range (t + 1)).reverse := by
        rw [List.range_succ, List.reverse_append]; rfl
      cases hu : up (t + 1) <;> cases hd : down (t + 1) <;>
        simp [sideFF, specSide, lastSwitch, side0, hrev, List.find?, hu, hd] <;>
        simpa [specSide, lastSwitch] using ih

/-- The forward-filled column only carries event signs or stays missing. -/
theorem sideFF_range (up down : ℕ → Bool) (t : ℕ) :
    sideFF up down t = none ∨ sideFF up down t = some 1 ∨ sideFF up down t = some (-1) := by
  induction t with
  | zero =>
      cases hu : up 0 <;> cases hd : down 0 <;> simp [sideFF, side0, hu, hd]
  | succ t ih =>
      cases hu : up (t + 1) <;> cases hd : down (t + 1) <;>
        simp [sideFF, side0, hu, hd] <;> exact ih

theorem sideFF_ne_zero (up down : ℕ → Bool) (t : ℕ) :
    sideFF up down t ≠ some 0 := by
  rcases sideFF_range up down t with h | h | h <;> rw [h] <;> simp

/-!
Values produced by the pipeline: most derived columns are either NaN or a
finite value, never an infinity, because every division that could
otherwise overflow has a zero numerator whenever its denominator is zero.
-/

def nanOrFin (s : ℕ → FVal) : Prop := ∀ i, s i = nan ∨ ∃ q, s i = fin q

theorem nanOrFin_toSeries (close : List ℚ) : nanOrFin (toSeries close) := by
  intro i
  unfold toSeries
  by_cases h : i < close.length
  · exact Or.inr ⟨_, if_pos h⟩
  · exact Or.inl (if_neg h)

theorem nanOrFin_shiftS (k : ℕ) {s : ℕ → FVal} (hs : nanOrFin s) : nanOrFin (shiftS k s) := by
  intro i
  unfold shiftS
  by_cases h : i < k
  · simp [h]
  · simpa [h] using hs (i - k)

@[simp] theorem fneg_nan : fneg nan = nan := rfl

@[simp] theorem fadd_nan_left (x : FVal) : fadd nan x = nan := by cases x <;> rfl

@[simp] theorem fadd_nan_right (x : FVal) : fadd x nan = nan := by cases x <;> rfl

@[simp] theorem fsub_nan_left (x : FVal) : fsub nan x = nan := by cases x <;> rfl

@[simp] theorem fsub_nan_right (x : FVal) : fsub x nan = nan := by cases x <;> rfl

@[simp] theorem fmul_nan_left (x : FVal) : fmul nan x = nan := by cases x <;> rfl

@[simp] theorem fmul_nan_right (x : FVal) : fmul x nan = nan := by cases x <;> rfl

@[simp] theorem fdiv_nan_left (x : FVal) : fdiv nan x = nan := by cases x <;> rfl

@[simp] theorem fdiv_nan_right (x : FVal) : fdiv x nan = nan := by cases x <;> rfl

@[simp] theorem sqrtF_nan : sqrtF nan = nan := rfl

@[simp] theorem fabs_nan : fabs nan = nan := rfl

/-- A list of non-NaN values drawn from a nan-or-finite source is a list
of finite values. -/
theorem exists_map_fin {vals : List FVal} (h1 : vals.any isNan = false)
    (h2 : ∀ v ∈ vals, v = nan ∨ ∃ q, v = fin q) : ∃ qs : List ℚ, vals = qs.map fin := by
  induction vals with
  | nil => exact ⟨[], rfl⟩
  | cons v rest ih =>
      simp only [List.any_cons, Bool.or_eq_false_iff] at h1
      obtain ⟨hv, hrest⟩ := h1
      rcases h2 v (List.mem_cons_self ..) with hn | ⟨q, hq⟩
      · rw [hn] at hv; simp [isNan] at hv
      · obtain ⟨qs, hqs⟩ := ih hrest (fun x hx => h2 x (List.mem_cons_of_mem _ hx))
        exact ⟨q :: qs, by rw [hq, hqs]; rfl⟩

theorem fadd_fin (a b : ℚ) : fadd (fin a) (fin b) = fin (a + b) := rfl

theorem fsub_fin (a b : ℚ) : fsub (fin a) (fin b) = fin (a - b) := by
  simp [fsub, fneg, fadd, sub_eq_add_neg]

theorem fmul_fin (a b : ℚ) : fmul (fin a) (fin b) = fin (a * b) := rfl

theorem fdiv_fin (a b : ℚ) (hb : b ≠ 0) : fdiv (fin a) (fin b) = fin (a / b) := by
  simp [fdiv, hb]

theorem fdiv_zero_zero : fdiv (fin 0) (fin 0) = nan := by
  simp [fdiv]

theorem sqrtF_fin (q : ℚ) (h : 0 ≤ q) : sqrtF (fin q) = fin (Rat.sqrt q) := by
  simp [sqrtF, not_lt.mpr h]

theorem fmax_fin (a b : ℚ) : fmax (fin a) (fin b) = fin (max a b) := by
  by_cases h : a < b
  · simp [fmax, flt, h, max_eq_right h.le]
  · simp [fmax, flt, h, max_eq_left (le_of_not_lt h)]

theorem fmin_fin (a b : ℚ) : fmin (fin a) (fin b) = fin (min a b) := by
  by_cases h : b < a
  · simp [fmin, flt, h, min_eq_right h.le]
  · simp [fmin, flt, h, min_eq_left (le_of_not_lt h)]

/-- Folding a finite-value lifted operation over finite values stays
finite and computes the rational fold. -/
theorem foldl_fin_lift (g : FVal → FVal → FVal) (f : ℚ → ℚ → ℚ)
    (hfg : ∀ a b, g (fin a) (fin b) = fin (f a b)) :
    ∀ (qs : List ℚ) (q : ℚ), (qs.map fin).foldl g (fin q) = fin (qs.foldl f q) := by
  intro qs
  induction qs with
  | nil => intro q; rfl
  | cons a rest ih =>
      intro q
      simp only [List.map_cons, List.foldl_cons, hfg]
      exact ih (f q a)

theorem foldl_add_eq (qs : List ℚ) : ∀ q : ℚ, qs.foldl (· + ·) q = q + qs.sum := by
  induction qs with
  | nil => intro q; simp
  | cons a rest ih => intro q; simp [ih]; ring

theorem foldl_max_bounds (qs : List ℚ) :
    ∀ q : ℚ, q ≤ qs.foldl max q ∧ ∀ x ∈ qs, x ≤ qs.foldl max q := by
  induction qs with
  | nil => intro q; simp
  | cons a rest ih =>
      intro q
      obtain ⟨h1, h2⟩ := ih (max q a)
      refine ⟨le_trans (le_max_left _ _) h1, ?_⟩
      intro x hx
      rcases List.mem_cons.mp hx with rfl | hx
      · exact le_trans (le_max_right _ _) h1
      · exact h2 x hx

theorem foldl_min_bounds (qs : List ℚ) :
    ∀ q : ℚ, qs.foldl min q ≤ q ∧ ∀ x ∈ qs, qs.foldl min q ≤ x := by
  induction qs with
  | nil => intro q; simp
  | cons a rest ih =>
      intro q
      obtain ⟨h1, h2⟩ := ih (min q a)
      refine ⟨le_trans h1 (min_le_left _ _), ?_⟩
      intro x hx
      rcases List.mem_cons.mp hx with rfl | hx
      · exact le_trans h1 (min_le_right _ _)
      · exact h2 x hx

/-- Structure of a fully warmed-up, NaN-free window over the price
series: the current price heads the window and the rolling extremes are
the rational fold of max and min over the window, bracketing the price. -/
theorem window_minmax (close : List ℚ) (w' i : ℕ) (hw : ¬ (i + 1 < w' + 1))
    (hnan : (((List.range (w' + 1)).map (fun j => toSeries close (i - j))).any isNan) = false) :
    ∃ (c : ℚ) (qs : List ℚ),
      toSeries close i = fin c ∧
      rollingMax (w' + 1) (toSeries close) i = fin (qs.foldl max c) ∧
      rollingMin (w' + 1) (toSeries close) i = fin (qs.foldl min c) ∧
      qs.foldl min c ≤ c ∧ c ≤ qs.foldl max c := by
  have hvals : (List.range (w' + 1)).map (fun j => toSeries close (i - j))
      = toSeries close i :: (List.range w').map (fun j => toSeries close (i - (j + 1))) := by
    rw [List.range_succ_eq_map, List.map_cons, List.map_map]
    simp [Function.comp_def]
  rw [hvals] at hnan
  simp only [List.any_cons, Bool.or_eq_false_iff] at hnan
  obtain ⟨hhead, hrest⟩ := hnan
  rcases nanOrFin_toSeries close i with hn | ⟨c, hc⟩
  · rw [hn] at hhead; simp [isNan] at hhead
  obtain ⟨qs, hqs⟩ := exists_map_fin hrest (by
    intro v hv
    simp only [List.mem_map] at hv
    obtain ⟨j, _, hj⟩ := hv
    rw [← hj]
    exact nanOrFin_toSeries close (i - (j + 1)))
  have hanyfalse : ((toSeries close i :: (List.range w').map (fun j => toSeries close (i - (j + 1)))).any isNan) = false := by
    simp only [List.any_cons, Bool.or_eq_false_iff]
    exact ⟨by rw [hc]; rfl, hrest⟩
  refine ⟨c, qs, hc, ?_, ?_, (foldl_min_bounds qs c).1, (foldl_max_bounds qs c).1⟩
  · show rollingAgg maxOp (w' + 1) (toSeries close) i = _
    unfold rollingAgg
    simp only [if_neg hw, hvals, hanyfalse, if_neg (by simp : ¬ (false = true))]
    rw [hc, hqs]
    show (qs.map fin).foldl fmax (fin c) = _
    exact foldl_fin_lift fmax max fmax_fin qs c
  · show rollingAgg minOp (w' + 1) (toSeries close) i = _
    unfold rollingAgg
    simp only [if_neg hw, hvals, hanyfalse, if_neg (by simp : ¬ (false = true))]
    rw [hc, hqs]
    show (qs.map fin).foldl fmin (fin c) = _
    exact foldl_fin_lift fmin min fmin_fin qs c

/-- The Williams %R column is NaN or finite: when the rolling range is
zero the whole window is constant, so the numerator is zero as well and
the division gives NaN, not an infinity. -/
theorem wrCol_outcome (close : List ℚ) (w i : ℕ) :
    wr.wrCol close w i = nan ∨ ∃ q, wr.wrCol close w i = fin q := by
  have heq : wr.wrCol close w i = fmul (fin 100) (fdiv
      (fsub (rollingMax w (toSeries close) i) (toSeries close i))
      (fsub (rollingMax w (toSeries close) i) (rollingMin w (toSeries close) i))) := rfl
  rw [heq]
  by_cases hw : i + 1 < w
  · left
    simp [rollingMax, rollingAgg, hw, fsub, fadd, fdiv, fmul]
  cases w with
  | zero =>
      left
      simp [rollingMax, rollingAgg, maxOp, fsub, fadd, fdiv, fmul]
  | succ w' =>
      by_cases hnan : (((List.range (w' + 1)).map (fun j => toSeries close (i - j))).any isNan) = true
      · left
        simp only [rollingMax, rollingAgg, if_neg hw, hnan, if_pos]
        simp [fsub, fadd, fdiv, fmul]
      · obtain ⟨c, qs, hc, hmax, hmin, hmc, hcM⟩ :=
          window_minmax close w' i hw (by simpa using hnan)
        rw [hmax, hmin, hc, fsub_fin, fsub_fin]
        by_cases hd : qs.foldl max c - qs.foldl min c = 0
        · left
          have h1 : qs.foldl max c = qs.foldl min c := sub_eq_zero.mp hd
          have h2 : c = qs.foldl max c := le_antisymm hcM (h1 ▸ hmc)
          have hnum : qs.foldl max c - c = 0 := sub_eq_zero.mpr h2.symm
          rw [hnum, hd, fdiv_zero_zero]
          rfl
        · right
          rw [fdiv_fin _ _ hd, fmul_fin]
          exact ⟨_, rfl⟩

/-- The stochastic %K column is NaN or finite, by the same zero-range
argument as Williams %R. -/
theorem KCol_outcome (close : List ℚ) (w i : ℕ) :
    Stochastic.K close w i = nan ∨ ∃ q, Stochastic.K close w i = fin q := by
  have heq : Stochastic.K close w i = fmul (fin 100) (fdiv
      (fsub (toSeries close i) (rollingMin w (toSeries close) i))
      (fsub (rollingMax w (toSeries close) i) (rollingMin w (toSeries close) i))) := rfl
  rw [heq]
  by_cases hw : i + 1 < w
  · left
    simp [rollingMax, rollingMin, rollingAgg, hw]
  cases w with
  | zero =>
      left
      simp [rollingMax, rollingMin, rollingAgg, maxOp, minOp]
  | succ w' =>
      by_cases hnan : (((List.range (w' + 1)).map (fun j => toSeries close (i - j))).any isNan) = true
      · left
        simp only [rollingMax, rollingMin, rollingAgg, if_neg hw, hnan, if_pos]
        simp
      · obtain ⟨c, qs, hc, hmax, hmin, hmc, hcM⟩ :=
          window_minmax close w' i hw (by simpa using hnan)
        rw [hmax, hmin, hc, fsub_fin, fsub_fin]
        by_cases hd : qs.foldl max c - qs.foldl min c = 0
        · left
          have h1 : qs.foldl max c = qs.foldl min c := sub_eq_zero.mp hd
          have h2 : c = qs.foldl min c := le_antisymm (h1 ▸ hcM) hmc
          have hnum : c - qs.foldl min c = 0 := sub_eq_zero.mpr h2
          rw [hnum, hd, fdiv_zero_zero]
          rfl
        · right
          rw [fdiv_fin _ _ hd, fmul_fin]
          exact ⟨_, rfl⟩

/-- A rolling mean over a nan-or-finite source is nan-or-finite. -/
theorem rollingMean_nanOrFin {s : ℕ → FVal} (hs : nanOrFin s) (w : ℕ) :
    nanOrFin (rollingMean w s) := by
  intro i
  unfold rollingMean rollingAgg
  by_cases hw : i + 1 < w
  · left; simp [hw]
  · cases hnan : ((List.range w).map (fun j => s (i - j))).any isNan with
    | true => left; simp [hw, hnan]
    | false =>
        obtain ⟨qs, hqs⟩ := exists_map_fin hnan (by
          intro v hv
          simp only [List.mem_map] at hv
          obtain ⟨j, _, hj⟩ := hv
          rw [← hj]
          exact hs (i - j))
        have hfold : (qs.map fin).foldl fadd (fin 0) = fin (qs.foldl (· + ·) 0) :=
          foldl_fin_lift fadd (· + ·) fadd_fin qs 0
        have hnan2 : ((qs.map fin).any isNan) = false := by rw [← hqs]; exact hnan
        simp only [if_neg hw, hqs, hnan2, Bool.false_eq_true, if_false]
        unfold meanOp
        rw [hfold]
        cases w with
        | zero =>
            left
            have hqsnil : qs = [] := by simpa using List.map_eq_nil.mp hqs.symm
            subst hqsnil
            simpa using fdiv_zero_zero
        | succ w' =>
            right
            rw [fdiv_fin _ _ (by exact_mod_cast Nat.succ_ne_zero w')]
            exact ⟨_, rfl⟩

/-- The Bollinger average and standard deviation over the price series
are NaN together, or both finite with a nonnegative standard deviation. -/
theorem bb_outcome (close : List ℚ) (w i : ℕ) :
    (BollingerBands.average close w i = nan ∧ BollingerBands.standard_deviation close w i = nan) ∨
    (∃ a s : ℚ, 0 ≤ s ∧ BollingerBands.average close w i = fin a ∧
      BollingerBands.standard_deviation close w i = fin s) := by
  unfold BollingerBands.average BollingerBands.standard_deviation rollingMean rollingStd rollingAgg
  by_cases hw : i + 1 < w
  · left; constructor <;> simp [hw]
  cases hnan : ((List.range w).map (fun j => toSeries close (i - j))).any isNan with
  | true => left; constructor <;> simp [hw, hnan]
  | false =>
      obtain ⟨qs, hqs⟩ := exists_map_fin hnan (by
        intro v hv
        simp only [List.mem_map] at hv
        obtain ⟨j, _, hj⟩ := hv
        rw [← hj]
        exact nanOrFin_toSeries close (i - j))
      have hnan2 : ((qs.map fin).any isNan) = false := by rw [← hqs]; exact hnan
      simp only [if_neg hw, hqs, hnan2, Bool.false_eq_true, if_false]
      cases w with
      | zero =>
          left
          have hqsnil : qs = [] := by simpa using List.map_eq_nil.mp hqs.symm
          subst hqsnil
          constructor
          · simpa [meanOp] using fdiv_zero_zero
          · simp [stdOp, meanOp]
            rw [fdiv_zero_zero, sqrtF_nan]
      | succ w' =>
          right
          have hwq : ((w' + 1 : ℕ) : ℚ) ≠ 0 := by exact_mod_cast Nat.succ_ne_zero w'
          have hmean : meanOp (w' + 1) (qs.map fin) = fin (qs.foldl (· + ·) 0 / ((w' + 1 : ℕ) : ℚ)) := by
            unfold meanOp
            rw [foldl_fin_lift fadd (· + ·) fadd_fin qs 0, fdiv_fin _ _ hwq]
          set a : ℚ := qs.foldl (· + ·) 0 / ((w' + 1 : ℕ) : ℚ) with ha
          have hsq : (qs.map fin).map
              (fun x => fmul (fsub x (fin a)) (fsub x (fin a)))
              = (qs.map (fun q => (q - a) * (q - a))).map fin := by
            rw [List.map_map, List.map_map]
            apply List.map_congr_left
            intro q _
            simp [Function.comp, fsub_fin, fmul_fin]
          have hssum : ((qs.map (fun q => (q - a) * (q - a))).map fin).foldl fadd (fin 0)
              = fin ((qs.map (fun q => (q - a) * (q - a))).foldl (· + ·) 0) :=
            foldl_fin_lift fadd (· + ·) fadd_fin _ 0
          have hsumnn : 0 ≤ (qs.map (fun q => (q - a) * (q - a))).foldl (· + ·) 0 := by
            rw [foldl_add_eq, zero_add]
            apply List.sum_nonneg
            intro x hx
            obtain ⟨q, _, hq⟩ := List.mem_map.mp hx
            rw [← hq]
            exact mul_self_nonneg _
          have hvar : 0 ≤ (qs.map (fun q => (q - a) * (q - a))).foldl (· + ·) 0 / ((w' + 1 : ℕ) : ℚ) :=
            div_nonneg hsumnn (by positivity)
          refine ⟨a, Rat.sqrt ((qs.map (fun q => (q - a) * (q - a))).foldl (· + ·) 0 / ((w' + 1 : ℕ) : ℚ)),
            Rat.sqrt_nonneg _, hmean, ?_⟩
          unfold stdOp
          rw [hmean]
          simp only [hsq, hssum]
          rw [fdiv_fin _ _ hwq, sqrtF_fin _ hvar]

theorem flt_fin_iff (a b : ℚ) : flt (fin a) (fin b) = true ↔ a < b := by
  simp [flt]

@[simp] theorem shiftS_one_succ (s : ℕ → FVal) (t : ℕ) : shiftS 1 s (t + 1) = s t := by
  simp [shiftS]

@[simp] theorem shiftS_one_zero (s : ℕ → FVal) : shiftS 1 s 0 = nan := rfl

/-- The two Bollinger bands are NaN together, or both finite and centred
on the average with a nonnegative half-width factor. -/
theorem bb_bands (close : List ℚ) (w : ℕ) (numsd : ℚ) (i : ℕ) :
    (BollingerBands.upper_band close w numsd i = nan ∧
      BollingerBands.lower_band close w numsd i = nan) ∨
    (∃ a s : ℚ, 0 ≤ s ∧ BollingerBands.upper_band close w numsd i = fin (a + s * numsd) ∧
      BollingerBands.lower_band close w numsd i = fin (a - s * numsd)) := by
  unfold BollingerBands.upper_band BollingerBands.lower_band
  rcases bb_outcome close w i with ⟨ha, hs⟩ | ⟨a, s, hs0, ha, hs⟩
  · left
    rw [ha, hs]
    constructor <;> simp
  · right
    exact ⟨a, s, hs0, by rw [ha, hs, fmul_fin, fadd_fin], by rw [ha, hs, fmul_fin, fsub_fin]⟩

theorem switchList_mem {n : ℕ} {mask : ℕ → Bool} {px : ℕ → FVal} {t : ℕ} {p : FVal} :
    (t, p) ∈ switchList n mask px ↔ t < n ∧ mask t = true ∧ p = px t := by
  unfold switchList
  simp only [List.mem_map, List.mem_filter, List.mem_range]
  constructor
  · rintro ⟨i, ⟨hin, hmask⟩, heq⟩
    cases heq
    exact ⟨hin, hmask, rfl⟩
  · rintro ⟨h1, h2, h3⟩
    exact ⟨t, ⟨h1, h2⟩, by rw [h3]⟩

/-- Claim C6: for every signal-producing variant and every input, no row
satisfies the up-cross and the down-cross predicate at once. -/
theorem C6_switch_disjoint :
    (∀ (close : List ℚ) (window t : ℕ),
      (wr.upMask close window t && wr.downMask close window t) = false) ∧
    (∀ (close : List ℚ) (fast_ma slow_ma : ℚ) (t : ℕ),
      (EMA.upMask close fast_ma slow_ma t && EMA.downMask close fast_ma slow_ma t) = false) ∧
    (∀ (close : List ℚ) (window : ℕ) (numsd : ℚ) (t : ℕ),
      (BollingerBands.upMask close window numsd t && BollingerBands.downMask close window numsd t) = false) ∧
    (∀ (close : List ℚ) (window stoch_window t : ℕ),
      (Stochastic.upMask close window stoch_window t && Stochastic.downMask close window stoch_window t) = false) ∧
    (∀ (close : List ℚ) (tw kw sw t : ℕ),
      (Ichimoku.upMask close tw kw sw t && Ichimoku.downMask close tw kw sw t) = false) ∧
    (∀ (close : List ℚ) (window t : ℕ),
      (RSI.upMask close window t && RSI.downMask close window t) = false) := by
  refine ⟨?_, ?_, ?_, ?_, ?_, ?_⟩
  · intro close window t
    rcases @flt_chain (wr.wrCol close window t) 20 80 (by norm_num) with h | h <;>
      simp [wr.upMask, wr.downMask, fgt, h]
  · intro close fast_ma slow_ma t
    cases h : flt (EMA.slow close slow_ma t) (EMA.fast close fast_ma t) with
    | true => simp [EMA.upMask, EMA.downMask, fgt, flt_asymm h]
    | false => simp [EMA.upMask, EMA.downMask, fgt, h]
  · intro close window numsd t
    cases hu : BollingerBands.upMask close window numsd t with
    | false => simp
    | true =>
        cases hd : BollingerBands.downMask close window numsd t with
        | false => simp
        | true =>
            exfalso
            unfold BollingerBands.upMask at hu
            unfold BollingerBands.downMask at hd
            rw [Bool.and_eq_true] at hu hd
            obtain ⟨hu1, hu2⟩ := hu
            obtain ⟨hd1, hd2⟩ := hd
            have hcur : flt (BollingerBands.upper_band close window numsd t)
                (BollingerBands.lower_band close window numsd t) = true :=
              flt_trans hd2 hu2
            have hkneg : numsd < 0 := by
              rcases bb_bands close window numsd t with ⟨hU, hL⟩ | ⟨a, s, hs0, hU, hL⟩
              · rw [hL] at hcur; simp at hcur
              · rw [hU, hL, flt_fin_iff] at hcur
                by_contra hk
                push_neg at hk
                nlinarith
            cases t with
            | zero =>
                simp [shiftS, fgt] at hu1
            | succ t' =>
                have hprev : flt (BollingerBands.lower_band close window numsd t')
                    (BollingerBands.upper_band close window numsd t') = true := by
                  have h1 := hu1
                  have h2 := hd1
                  rw [show shiftS 1 (BollingerBands.price close) (t' + 1)
                      = BollingerBands.price close t' from by simp [shiftS]] at h1 h2
                  rw [show shiftS 1 (BollingerBands.lower_band close window numsd) (t' + 1)
                      = BollingerBands.lower_band close window numsd t' from by simp [shiftS]] at h1
                  rw [show shiftS 1 (BollingerBands.upper_band close window numsd) (t' + 1)
                      = BollingerBands.upper_band close window numsd t' from by simp [shiftS]] at h2
                  exact flt_trans h1 h2
                rcases bb_bands close window numsd t' with ⟨hU, hL⟩ | ⟨a, s, hs0, hU, hL⟩
                · rw [hU] at hprev; simp at hprev
                · rw [hU, hL, flt_fin_iff] at hprev
                  nlinarith
  · intro close window stoch_window t
    rcases @flt_chain (Stochastic.K close window t) 20 80 (by norm_num) with h | h <;>
      simp [Stochastic.upMask, Stochastic.downMask, fgt, h]
  · intro close tw kw sw t
    cases h : flt (Ichimoku.senkou_span_a close tw kw t) (Ichimoku.senkou_span_b close kw sw t) with
    | true => simp [Ichimoku.upMask, Ichimoku.downMask, fgt, flt_asymm h, h]
    | false => simp [Ichimoku.upMask, Ichimoku.downMask, fgt, h]
  · intro close window t
    rcases @flt_chain (RSI.RSICol close window t) 30 70 (by norm_num) with h | h <;>
      simp [RSI.upMask, RSI.downMask, fgt, h]

/-- Claim C7: a row where an indicator value used by a crossing predicate
(or its previous-bar value) is NaN never fires a crossing, because every
comparison against NaN is false. -/
theorem C7_nan_no_crossing :
    (∀ (close : List ℚ) (window t : ℕ),
      (wr.wrCol close window t = nan ∨ shiftS 1 (wr.wrCol close window) t = nan) →
      wr.upMask close window t = false ∧ wr.downMask close window t = false) ∧
    (∀ (close : List ℚ) (fast_ma slow_ma : ℚ) (t : ℕ),
      (EMA.fast close fast_ma t = nan ∨ EMA.slow close slow_ma t = nan ∨
        shiftS 1 (EMA.fast close fast_ma) t = nan ∨ shiftS 1 (EMA.slow close slow_ma) t = nan) →
      EMA.upMask close fast_ma slow_ma t = false ∧ EMA.downMask close fast_ma slow_ma t = false) ∧
    (∀ (close : List ℚ) (window : ℕ) (numsd : ℚ) (t : ℕ),
      (BollingerBands.upper_band close window numsd t = nan ∨
        BollingerBands.lower_band close window numsd t = nan ∨
        shiftS 1 (BollingerBands.upper_band close window numsd) t = nan ∨
        shiftS 1 (BollingerBands.lower_band close window numsd) t = nan) →
      BollingerBands.upMask close window numsd t = false ∧
        BollingerBands.downMask close window numsd t = false) ∧
    (∀ (close : List ℚ) (window stoch_window t : ℕ),
      (Stochastic.K close window t = nan ∨ Stochastic.D close window stoch_window t = nan ∨
        shiftS 1 (Stochastic.K close window) t = nan ∨
        shiftS 1 (Stochastic.D close window stoch_window) t = nan) →
      Stochastic.upMask close window stoch_window t = false ∧
        Stochastic.downMask close window stoch_window t = false) ∧
    (∀ (close : List ℚ) (tw kw sw t : ℕ),
      (Ichimoku.senkou_span_a close tw kw t = nan ∨ Ichimoku.senkou_span_b close kw sw t = nan ∨
        shiftS 1 (Ichimoku.senkou_span_a close tw kw) t = nan ∨
        shiftS 1 (Ichimoku.senkou_span_b close kw sw) t = nan) →
      Ichimoku.upMask close tw kw sw t = false ∧ Ichimoku.downMask close tw kw sw t = false) ∧
    (∀ (close : List ℚ) (window t : ℕ),
      (RSI.RSICol close window t = nan ∨ shiftS 1 (RSI.RSICol close window) t = nan) →
      RSI.upMask close window t = false ∧ RSI.downMask close window t = false) := by
  refine ⟨?_, ?_, ?_, ?_, ?_, ?_⟩
  · intro close window t h
    rcases h with h | h <;> constructor <;> simp [wr.upMask, wr.downMask, fgt, h]
  · intro close fast_ma slow_ma t h
    rcases h with h | h | h | h <;> constructor <;> simp [EMA.upMask, EMA.downMask, fgt, h]
  · intro close window numsd t h
    have pair : ∀ (i : ℕ), BollingerBands.upper_band close window numsd i = nan ↔
        BollingerBands.lower_band close window numsd i = nan := by
      intro i
      rcases bb_bands close window numsd i with ⟨hU, hL⟩ | ⟨a, s, _, hU, hL⟩
      · rw [hU, hL]
      · rw [hU, hL]; constructor <;> (intro hc; cases hc)
    have h2 : (BollingerBands.upper_band close window numsd t = nan ∧
        BollingerBands.lower_band close window numsd t = nan) ∨
        (shiftS 1 (BollingerBands.upper_band close window numsd) t = nan ∧
          shiftS 1 (BollingerBands.lower_band close window numsd) t = nan) := by
      rcases h with h | h | h | h
      · exact Or.inl ⟨h, (pair t).mp h⟩
      · exact Or.inl ⟨(pair t).mpr h, h⟩
      · cases t with
        | zero => exact Or.inr ⟨rfl, rfl⟩
        | succ t' =>
            rw [shiftS_one_succ] at h
            rw [shiftS_one_succ, shiftS_one_succ]
            exact Or.inr ⟨h, (pair t').mp h⟩
      · cases t with
        | zero => exact Or.inr ⟨rfl, rfl⟩
        | succ t' =>
            rw [shiftS_one_succ] at h
            rw [shiftS_one_succ, shiftS_one_succ]
            exact Or.inr ⟨(pair t').mpr h, h⟩
    rcases h2 with ⟨hU, hL⟩ | ⟨hU, hL⟩ <;> constructor <;>
      simp [BollingerBands.upMask, BollingerBands.downMask, fgt, hU, hL]
  · intro close window stoch_window t h
    rcases h with h | h | h | h <;> constructor <;>
      simp [Stochastic.upMask, Stochastic.downMask, fgt, h]
  · intro close tw kw sw t h
    rcases h with h | h | h | h <;> constructor <;>
      simp [Ichimoku.upMask, Ichimoku.downMask, fgt, h]
  · intro close window t h
    rcases h with h | h <;> constructor <;> simp [RSI.upMask, RSI.downMask, fgt, h]

/-- Witness for C7: at row 0 of a one-row series every variant has a NaN
indicator (or NaN previous-bar value) and indeed fires no crossing. -/
theorem C7_witness :
    ((wr.wrCol [1] 14 0 = nan ∨ shiftS 1 (wr.wrCol [1] 14) 0 = nan) ∧
      (wr.upMask [1] 14 0 = false ∧ wr.downMask [1] 14 0 = false)) ∧
    ((EMA.fast [1] 3 0 = nan ∨ EMA.slow [1] 7 0 = nan ∨ shiftS 1 (EMA.fast [1] 3) 0 = nan ∨
        shiftS 1 (EMA.slow [1] 7) 0 = nan) ∧
      (EMA.upMask [1] 3 7 0 = false ∧ EMA.downMask [1] 3 7 0 = false)) ∧
    ((BollingerBands.upper_band [1] 20 2 0 = nan ∨ BollingerBands.lower_band [1] 20 2 0 = nan ∨
        shiftS 1 (BollingerBands.upper_band [1] 20 2) 0 = nan ∨
        shiftS 1 (BollingerBands.lower_band [1] 20 2) 0 = nan) ∧
      (BollingerBands.upMask [1] 20 2 0 = false ∧ BollingerBands.downMask [1] 20 2 0 = false)) ∧
    ((Stochastic.K [1] 20 0 = nan ∨ Stochastic.D [1] 20 3 0 = nan ∨
        shiftS 1 (Stochastic.K [1] 20) 0 = nan ∨ shiftS 1 (Stochastic.D [1] 20 3) 0 = nan) ∧
      (Stochastic.upMask [1] 20 3 0 = false ∧ Stochastic.downMask [1] 20 3 0 = false)) ∧
    ((Ichimoku.senkou_span_a [1] 9 26 0 = nan ∨ Ichimoku.senkou_span_b [1] 26 52 0 = nan ∨
        shiftS 1 (Ichimoku.senkou_span_a [1] 9 26) 0 = nan ∨
        shiftS 1 (Ichimoku.senkou_span_b [1] 26 52) 0 = nan) ∧
      (Ichimoku.upMask [1] 9 26 52 0 = false ∧ Ichimoku.downMask [1] 9 26 52 0 = false)) ∧
    ((RSI.RSICol [1] 14 0 = nan ∨ shiftS 1 (RSI.RSICol [1] 14) 0 = nan) ∧
      (RSI.upMask [1] 14 0 = false ∧ RSI.downMask [1] 14 0 = false)) := by
  have hwr : wr.wrCol [1] 14 0 = nan := by
    norm_num [wr.wrCol, rollingAgg, rollingMax, rollingMin]
  have hema : shiftS 1 (EMA.fast [1] 3) 0 = nan := rfl
  have hbb : BollingerBands.upper_band [1] 20 2 0 = nan := by
    norm_num [BollingerBands.upper_band, BollingerBands.average,
      BollingerBands.standard_deviation, rollingMean, rollingStd, rollingAgg]
  have hst : Stochastic.K [1] 20 0 = nan := by
    norm_num [Stochastic.K, rollingAgg, rollingMax, rollingMin]
  have hich : Ichimoku.senkou_span_a [1] 9 26 0 = nan := rfl
  have hrsi : RSI.RSICol [1] 14 0 = nan := by
    norm_num [RSI.RSICol, RSI.RS1, RSI.roll_up1, RSI.roll_down1, RSI.upSeries, RSI.downSeries,
      RSI.rtn, diffS, ewmMean, toSeries, isNan, List.range_succ, List.filter, shiftS]
  exact ⟨⟨Or.inl hwr, C7_nan_no_crossing.1 [1] 14 0 (Or.inl hwr)⟩,
    ⟨Or.inr (Or.inr (Or.inl hema)),
      C7_nan_no_crossing.2.1 [1] 3 7 0 (Or.inr (Or.inr (Or.inl hema)))⟩,
    ⟨Or.inl hbb, C7_nan_no_crossing.2.2.1 [1] 20 2 0 (Or.inl hbb)⟩,
    ⟨Or.inl hst, C7_nan_no_crossing.2.2.2.1 [1] 20 3 0 (Or.inl hst)⟩,
    ⟨Or.inl hich, C7_nan_no_crossing.2.2.2.2.1 [1] 9 26 52 0 (Or.inl hich)⟩,
    ⟨Or.inl hrsi, C7_nan_no_crossing.2.2.2.2.2 [1] 14 0 (Or.inl hrsi)⟩⟩

theorem getD_replicate (c d : ℚ) : ∀ (n k : ℕ), k < n → (List.replicate n c).getD k d = c := by
  intro n
  induction n with
  | zero => intro k hk; omega
  | succ n ih =>
      intro k hk
      cases k with
      | zero => rfl
      | succ k => exact ih k (by omega)

/-- Claim C8: Bollinger bands on a constant-price series: at every fully
warmed-up row the standard deviation is 0 and all three bands equal the
constant price. -/
theorem C8_bollinger_constant (c : ℚ) (n w : ℕ) (numsd : ℚ) (i : ℕ)
    (hw : 0 < w) (hn : w < n) (hi1 : w - 1 ≤ i) (hin : i < n) :
    BollingerBands.standard_deviation (List.replicate n c) w i = fin 0 ∧
    BollingerBands.average (List.replicate n c) w i = fin c ∧
    BollingerBands.upper_band (List.replicate n c) w numsd i = fin c ∧
    BollingerBands.lower_band (List.replicate n c) w numsd i = fin c := by
  have hw2 : ¬ (i + 1 < w) := by omega
  have hwq : ((w : ℕ) : ℚ) ≠ 0 := by exact_mod_cast Nat.pos_iff_ne_zero.mp hw
  have hvals : (List.range w).map (fun j => toSeries (List.replicate n c) (i - j))
      = List.replicate w (fin c) := by
    apply List.eq_replicate.2
    refine ⟨by simp, ?_⟩
    intro b hb
    obtain ⟨j, hj, hbj⟩ := List.mem_map.mp hb
    rw [← hbj]
    unfold toSeries
    rw [if_pos (by simp; omega), getD_replicate c 0 n (i - j) (by omega)]
  have hanyf : ((List.replicate w (fin c)).any isNan) = false := by
    rw [List.any_eq_false]
    intro x hx
    rw [List.eq_of_mem_replicate hx]
    simp [isNan]
  have hrepl : List.replicate w (fin c) = (List.replicate w c).map fin :=
    (List.map_replicate ..).symm
  have hsum : ((List.replicate w c).map fin).foldl fadd (fin 0)
      = fin ((w : ℚ) * c) := by
    rw [foldl_fin_lift fadd (· + ·) fadd_fin, foldl_add_eq, zero_add, List.sum_replicate,
      nsmul_eq_mul]
  have havg : BollingerBands.average (List.replicate n c) w i = fin c := by
    unfold BollingerBands.average rollingMean rollingAgg
    simp only [if_neg hw2, hvals, hanyf, Bool.false_eq_true, if_false]
    unfold meanOp
    rw [hrepl, hsum, fdiv_fin _ _ hwq, mul_div_cancel_left₀ c hwq]
  have hsd : BollingerBands.standard_deviation (List.replicate n c) w i = fin 0 := by
    unfold BollingerBands.standard_deviation rollingStd rollingAgg
    simp only [if_neg hw2, hvals, hanyf, Bool.false_eq_true, if_false]
    unfold stdOp
    have hmean : meanOp w (List.replicate w (fin c)) = fin c := by
      unfold meanOp
      rw [hrepl, hsum, fdiv_fin _ _ hwq, mul_div_cancel_left₀ c hwq]
    rw [hmean]
    have hsqmap : (List.replicate w (fin c)).map
        (fun x => fmul (fsub x (fin c)) (fsub x (fin c))) = (List.replicate w (0 : ℚ)).map fin := by
      rw [List.map_replicate, List.map_replicate, fsub_fin, fmul_fin]
      norm_num
    simp only [hsqmap]
    rw [foldl_fin_lift fadd (· + ·) fadd_fin, foldl_add_eq, zero_add,
      List.sum_replicate, nsmul_eq_mul, mul_zero, fdiv_fin _ _ hwq, zero_div,
      sqrtF_fin 0 le_rfl]
    have h0 : Rat.sqrt 0 = 0 := by
      have := Rat.sqrt_eq (0 : ℚ)
      simpa using this
    rw [h0]
  refine ⟨hsd, havg, ?_, ?_⟩
  · unfold BollingerBands.upper_band
    rw [havg, hsd, fmul_fin, fadd_fin, zero_mul, add_zero]
  · unfold BollingerBands.lower_band
    rw [havg, hsd, fmul_fin, fsub_fin, zero_mul, sub_zero]

/-- Witness for C8 at a concrete constant series. -/
theorem C8_witness :
    0 < 2 ∧ 2 < 3 ∧ 2 - 1 ≤ 2 ∧ 2 < 3 ∧
    (BollingerBands.standard_deviation (List.replicate 3 (5 : ℚ)) 2 2 = fin 0 ∧
      BollingerBands.average (List.replicate 3 (5 : ℚ)) 2 2 = fin 5 ∧
      BollingerBands.upper_band (List.replicate 3 (5 : ℚ)) 2 2 2 = fin 5 ∧
      BollingerBands.lower_band (List.replicate 3 (5 : ℚ)) 2 2 2 = fin 5) :=
  ⟨by norm_num, by norm_num, by norm_num, by norm_num,
    C8_bollinger_constant 5 3 2 2 2 (by norm_num) (by norm_num) (by norm_num) (by norm_num)⟩

/-- Claim C9: the crossing detectors of the abstract base indicator
always produce the unimplemented-in-base-type error, for every input
table, and never produce a result. -/
theorem C9_base_raises {α β : Type} (df : α) :
    ((Indicator.get_up_cross df : Except String β)
        = Except.error "Please implement this class in child classes" ∧
      (Indicator.get_up_cross df : Except String β).toOption = none) ∧
    ((Indicator.get_down_cross df : Except String β)
        = Except.error "Please implement this class in child classes" ∧
      (Indicator.get_down_cross df : Except String β).toOption = none) :=
  ⟨⟨rfl, rfl⟩, ⟨rfl, rfl⟩⟩

/-- Claim C1 as amended: for every signal-producing variant the side
column equals the sign of the most recent crossing event at-or-before the
row (undefined while no event has occurred) except where the neutral
override of Ichimoku or RSI forces it to 0 - which can also happen
strictly before the first event - and it takes no value outside
-1, 0, +1, undefined. -/
theorem C1_side_semantics_amended :
    (∀ (close : List ℚ) (window t : ℕ),
      wr.side close window t = specSide (wr.upMask close window) (wr.downMask close window) t ∧
      (wr.side close window t = none ∨ wr.side close window t = some 0 ∨
        wr.side close window t = some 1 ∨ wr.side close window t = some (-1))) ∧
    (∀ (close : List ℚ) (fast_ma slow_ma : ℚ) (t : ℕ),
      EMA.side close fast_ma slow_ma t
          = specSide (EMA.upMask close fast_ma slow_ma) (EMA.downMask close fast_ma slow_ma) t ∧
      (EMA.side close fast_ma slow_ma t = none ∨ EMA.side close fast_ma slow_ma t = some 0 ∨
        EMA.side close fast_ma slow_ma t = some 1 ∨ EMA.side close fast_ma slow_ma t = some (-1))) ∧
    (∀ (close : List ℚ) (window : ℕ) (numsd : ℚ) (t : ℕ),
      BollingerBands.side close window numsd t
          = specSide (BollingerBands.upMask close window numsd)
              (BollingerBands.downMask close window numsd) t ∧
      (BollingerBands.side close window numsd t = none ∨
        BollingerBands.side close window numsd t = some 0 ∨
        BollingerBands.side close window numsd t = some 1 ∨
        BollingerBands.side close window numsd t = some (-1))) ∧
    (∀ (close : List ℚ) (window stoch_window t : ℕ),
      Stochastic.side close window stoch_window t
          = specSide (Stochastic.upMask close window stoch_window)
              (Stochastic.downMask close window stoch_window) t ∧
      (Stochastic.side close window stoch_window t = none ∨
        Stochastic.side close window stoch_window t = some 0 ∨
        Stochastic.side close window stoch_window t = some 1 ∨
        Stochastic.side close window stoch_window t = some (-1))) ∧
    (∀ (close : List ℚ) (tw kw sw t : ℕ),
      Ichimoku.side close tw kw sw t
          = (if Ichimoku.cloudCond close tw kw sw t then some 0
             else specSide (Ichimoku.upMask close tw kw sw) (Ichimoku.downMask close tw kw sw) t) ∧
      (Ichimoku.side close tw kw sw t = none ∨ Ichimoku.side close tw kw sw t = some 0 ∨
        Ichimoku.side close tw kw sw t = some 1 ∨ Ichimoku.side close tw kw sw t = some (-1))) ∧
    (∀ (close : List ℚ) (window t : ℕ),
      RSI.side close window t
          = (if RSI.neutralBand close window t then some 0
             else specSide (RSI.upMask close window) (RSI.downMask close window) t) ∧
      (RSI.side close window t = none ∨ RSI.side close window t = some 0 ∨
        RSI.side close window t = some 1 ∨ RSI.side close window t = some (-1))) := by
  refine ⟨?_, ?_, ?_, ?_, ?_, ?_⟩
  · intro close window t
    refine ⟨sideFF_eq_specSide _ _ t, ?_⟩
    rcases sideFF_range (wr.upMask close window) (wr.downMask close window) t with h | h | h <;>
      simp [wr.side, h]
  · intro close fast_ma slow_ma t
    refine ⟨sideFF_eq_specSide _ _ t, ?_⟩
    rcases sideFF_range (EMA.upMask close fast_ma slow_ma)
        (EMA.downMask close fast_ma slow_ma) t with h | h | h <;>
      simp [EMA.side, h]
  · intro close window numsd t
    refine ⟨sideFF_eq_specSide _ _ t, ?_⟩
    rcases sideFF_range (BollingerBands.upMask close window numsd)
        (BollingerBands.downMask close window numsd) t with h | h | h <;>
      simp [BollingerBands.side, h]
  · intro close window stoch_window t
    refine ⟨sideFF_eq_specSide _ _ t, ?_⟩
    rcases sideFF_range (Stochastic.upMask close window stoch_window)
        (Stochastic.downMask close window stoch_window) t with h | h | h <;>
      simp [Stochastic.side, h]
  · intro close tw kw sw t
    constructor
    · by_cases h : Ichimoku.cloudCond close tw kw sw t
      · simp [Ichimoku.side, h]
      · simp [Ichimoku.side, h, sideFF_eq_specSide]
    · by_cases h : Ichimoku.cloudCond close tw kw sw t
      · simp [Ichimoku.side, h]
      · rcases sideFF_range (Ichimoku.upMask close tw kw sw)
            (Ichimoku.downMask close tw kw sw) t with h2 | h2 | h2 <;>
          simp [Ichimoku.side, h, h2]
  · intro close window t
    constructor
    · by_cases h : RSI.neutralBand close window t
      · simp [RSI.side, h]
      · simp [RSI.side, h, sideFF_eq_specSide]
    · by_cases h : RSI.neutralBand close window t
      · simp [RSI.side, h]
      · rcases sideFF_range (RSI.upMask close window) (RSI.downMask close window) t with
          h2 | h2 | h2 <;> simp [RSI.side, h, h2]

/-- Claim C3 as amended: the Ichimoku side is 0 exactly on the rows of
the cloud condition (price strictly between the spans in ascending
orientation, or neither strict comparison holding - which covers the
reversed orientation, boundary equalities and undefined spans); on every
other row the forward-filled event sign is left unchanged. -/
theorem C3_ichimoku_override_amended (close : List ℚ) (tw kw sw t : ℕ) :
    (Ichimoku.side close tw kw sw t = some 0 ↔ Ichimoku.cloudCond close tw kw sw t = true) ∧
    Ichimoku.side close tw kw sw t
      = (if Ichimoku.cloudCond close tw kw sw t then some 0
         else specSide (Ichimoku.upMask close tw kw sw) (Ichimoku.downMask close tw kw sw) t) := by
  constructor
  · constructor
    · intro h
      by_contra hc
      have hc2 : Ichimoku.cloudCond close tw kw sw t = false := by
        cases h2 : Ichimoku.cloudCond close tw kw sw t
        · rfl
        · exact absurd h2 hc
      rw [Ichimoku.side, if_neg (by rw [hc2]; exact Bool.false_ne_true)] at h
      exact sideFF_ne_zero _ _ t h
    · intro h
      simp [Ichimoku.side, h]
  · by_cases h : Ichimoku.cloudCond close tw kw sw t
    · simp [Ichimoku.side, h]
    · simp [Ichimoku.side, h, sideFF_eq_specSide]

/-- Claim C10 as amended: where both spans are undefined - in particular
on the whole prefix before kijun_sen_window rows - both strict
comparisons of price against the spans are false, so the complement
branch of the cloud override applies and the side is 0, even before any
crossing event. -/
theorem C10_ichimoku_nan_cloud_amended (close : List ℚ) (tw kw sw t : ℕ) :
    (t < kw → Ichimoku.senkou_span_a close tw kw t = nan ∧
      Ichimoku.senkou_span_b close kw sw t = nan) ∧
    (Ichimoku.senkou_span_a close tw kw t = nan →
      Ichimoku.senkou_span_b close kw sw t = nan →
      Ichimoku.cloudA close tw kw t = false ∧ Ichimoku.cloudB close kw sw t = false ∧
      Ichimoku.side close tw kw sw t = some 0) := by
  constructor
  · intro h
    constructor
    · unfold Ichimoku.senkou_span_a shiftS
      rw [if_pos h]
    · unfold Ichimoku.senkou_span_b shiftS
      rw [if_pos h]
  · intro ha hb
    have hA : Ichimoku.cloudA close tw kw t = false := by
      unfold Ichimoku.cloudA
      rw [ha, flt_nan_left]
    have hB : Ichimoku.cloudB close kw sw t = false := by
      unfold Ichimoku.cloudB
      rw [hb, flt_nan_right]
    refine ⟨hA, hB, ?_⟩
    have hc : Ichimoku.cloudCond close tw kw sw t = true := by
      unfold Ichimoku.cloudCond
      rw [hA, hB]
      rfl
    simp [Ichimoku.side, hc]

/-- Witness for C10: warm-up row 0 with the default windows. -/
theorem C10_witness :
    (0 < 26 ∧ (Ichimoku.senkou_span_a [1, 2, 3] 9 26 0 = nan ∧
      Ichimoku.senkou_span_b [1, 2, 3] 26 52 0 = nan)) ∧
    (Ichimoku.cloudA [1, 2, 3] 9 26 0 = false ∧ Ichimoku.cloudB [1, 2, 3] 26 52 0 = false ∧
      Ichimoku.side [1, 2, 3] 9 26 52 0 = some 0) :=
  ⟨⟨by norm_num, (C10_ichimoku_nan_cloud_amended [1, 2, 3] 9 26 52 0).1 (by norm_num)⟩,
    (C10_ichimoku_nan_cloud_amended [1, 2, 3] 9 26 52 0).2 rfl rfl⟩

theorem flt_right_iff {x : FVal} (hx : x = nan ∨ ∃ q, x = fin q) (c : ℚ) :
    flt x (fin c) = true ↔ ∃ q, x = fin q ∧ q < c := by
  rcases hx with h | ⟨q, h⟩ <;> subst h
  · simp
  · simp [flt_fin_iff]

theorem flt_left_iff {x : FVal} (hx : x = nan ∨ ∃ q, x = fin q) (c : ℚ) :
    flt (fin c) x = true ↔ ∃ q, x = fin q ∧ c < q := by
  rcases hx with h | ⟨q, h⟩ <;> subst h
  · simp
  · simp [flt_fin_iff]

theorem flt_both_iff {x y : FVal} (hx : x = nan ∨ ∃ q, x = fin q)
    (hy : y = nan ∨ ∃ q, y = fin q) :
    flt x y = true ↔ ∃ a b : ℚ, x = fin a ∧ y = fin b ∧ a < b := by
  rcases hx with h | ⟨a, h⟩ <;> subst h
  · simp
  · rcases hy with h | ⟨b, h⟩ <;> subst h
    · simp
    · simp [flt_fin_iff]

/-- Claim C4 as amended: a row enters switch_up exactly when the
previous Williams %R value is defined and above 20 and the current value
is defined and strictly below 20 (a row with %R exactly 20 does not
fire); switch_down fires on a defined previous value below 80 and a
defined current value above 80; the price is recorded at the event. -/
theorem C4_wr_crossing_amended (close : List ℚ) (window t : ℕ) (p : FVal) :
    ((t, p) ∈ wr.switch_up close window ↔
      (t < close.length ∧ p = wr.price close t ∧
        ∃ prev cur : ℚ, shiftS 1 (wr.wrCol close window) t = fin prev ∧
          wr.wrCol close window t = fin cur ∧ 20 < prev ∧ cur < 20)) ∧
    ((t, p) ∈ wr.switch_down close window ↔
      (t < close.length ∧ p = wr.price close t ∧
        ∃ prev cur : ℚ, shiftS 1 (wr.wrCol close window) t = fin prev ∧
          wr.wrCol close window t = fin cur ∧ prev < 80 ∧ 80 < cur)) := by
  have hnf : ∀ i, wr.wrCol close window i = nan ∨ ∃ q, wr.wrCol close window i = fin q :=
    wrCol_outcome close window
  have hnfs : ∀ i, shiftS 1 (wr.wrCol close window) i = nan ∨
      ∃ q, shiftS 1 (wr.wrCol close window) i = fin q :=
    nanOrFin_shiftS 1 hnf
  constructor
  · rw [show wr.switch_up close window
        = switchList close.length (wr.upMask close window) (wr.price close) from rfl,
      switchList_mem]
    constructor
    · rintro ⟨h1, h2, h3⟩
      unfold wr.upMask at h2
      rw [Bool.and_eq_true] at h2
      obtain ⟨ha, hb⟩ := h2
      unfold fgt at ha
      obtain ⟨prev, hp, hp2⟩ := (flt_left_iff (hnfs t) 20).mp ha
      obtain ⟨cur, hc, hc2⟩ := (flt_right_iff (hnf t) 20).mp hb
      exact ⟨h1, h3, prev, cur, hp, hc, hp2, hc2⟩
    · rintro ⟨h1, h3, prev, cur, hp, hc, hp2, hc2⟩
      refine ⟨h1, ?_, h3⟩
      unfold wr.upMask
      rw [Bool.and_eq_true]
      constructor
      · unfold fgt
        rw [hp, flt_fin_iff]
        exact hp2
      · rw [hc, flt_fin_iff]
        exact hc2
  · rw [show wr.switch_down close window
        = switchList close.length (wr.downMask close window) (wr.price close) from rfl,
      switchList_mem]
    constructor
    · rintro ⟨h1, h2, h3⟩
      unfold wr.downMask at h2
      rw [Bool.and_eq_true] at h2
      obtain ⟨ha, hb⟩ := h2
      unfold fgt at hb
      obtain ⟨prev, hp, hp2⟩ := (flt_right_iff (hnfs t) 80).mp ha
      obtain ⟨cur, hc, hc2⟩ := (flt_left_iff (hnf t) 80).mp hb
      exact ⟨h1, h3, prev, cur, hp, hc, hp2, hc2⟩
    · rintro ⟨h1, h3, prev, cur, hp, hc, hp2, hc2⟩
      refine ⟨h1, ?_, h3⟩
      unfold wr.downMask
      rw [Bool.and_eq_true]
      constructor
      · rw [hp, flt_fin_iff]
        exact hp2
      · unfold fgt
        rw [hc, flt_fin_iff]
        exact hc2

/-- Claim C2 as amended: a row enters the stochastic switch_up exactly
when %K is defined and below 20, %D was below %K on the previous bar
(both defined), and %D is above %K on the current bar; switch_down is
the symmetric construction above 80 with %D previously above %K and now
below it; the price is recorded at the event. -/
theorem C2_stochastic_crossing_amended (close : List ℚ) (window stoch_window t : ℕ) (p : FVal) :
    ((t, p) ∈ Stochastic.switch_up close window stoch_window ↔
      (t < close.length ∧ p = Stochastic.price close t ∧
        ∃ k d pk pd : ℚ,
          Stochastic.K close window t = fin k ∧
          Stochastic.D close window stoch_window t = fin d ∧
          shiftS 1 (Stochastic.K close window) t = fin pk ∧
          shiftS 1 (Stochastic.D close window stoch_window) t = fin pd ∧
          k < 20 ∧ pd < pk ∧ k < d)) ∧
    ((t, p) ∈ Stochastic.switch_down close window stoch_window ↔
      (t < close.length ∧ p = Stochastic.price close t ∧
        ∃ k d pk pd : ℚ,
          Stochastic.K close window t = fin k ∧
          Stochastic.D close window stoch_window t = fin d ∧
          shiftS 1 (Stochastic.K close window) t = fin pk ∧
          shiftS 1 (Stochastic.D close window stoch_window) t = fin pd ∧
          80 < k ∧ pk < pd ∧ d < k)) := by
  have hK : nanOrFin (Stochastic.K close window) := fun i => KCol_outcome close window i
  have hD : nanOrFin (Stochastic.D close window stoch_window) :=
    rollingMean_nanOrFin hK stoch_window
  have hKs : nanOrFin (shiftS 1 (Stochastic.K close window)) := nanOrFin_shiftS 1 hK
  have hDs : nanOrFin (shiftS 1 (Stochastic.D close window stoch_window)) :=
    nanOrFin_shiftS 1 hD
  constructor
  · rw [show Stochastic.switch_up close window stoch_window
        = switchList close.length (Stochastic.upMask close window stoch_window)
          (Stochastic.price close) from rfl,
      switchList_mem]
    constructor
    · rintro ⟨h1, h2, h3⟩
      unfold Stochastic.upMask at h2
      simp only [Bool.and_eq_true] at h2
      obtain ⟨⟨hk20, hprev⟩, hdk⟩ := h2
      obtain ⟨k, hk, hk2⟩ := (flt_right_iff (hK t) 20).mp hk20
      obtain ⟨pd, pk, hpd, hpk, hpp⟩ := (flt_both_iff (hDs t) (hKs t)).mp hprev
      unfold fgt at hdk
      obtain ⟨a, d, hKa, hDd, had⟩ := (flt_both_iff (hK t) (hD t)).mp hdk
      rw [hk] at hKa
      injection hKa with he
      subst he
      exact ⟨h1, h3, k, d, pk, pd, hk, hDd, hpk, hpd, hk2, hpp, had⟩
    · rintro ⟨h1, h3, k, d, pk, pd, hk, hd, hpk, hpd, hk2, hpp, hkd⟩
      refine ⟨h1, ?_, h3⟩
      unfold Stochastic.upMask
      simp only [Bool.and_eq_true]
      refine ⟨⟨by rw [hk, flt_fin_iff]; exact hk2, by rw [hpd, hpk, flt_fin_iff]; exact hpp⟩, ?_⟩
      unfold fgt
      rw [hk, hd, flt_fin_iff]
      exact hkd
  · rw [show Stochastic.switch_down close window stoch_window
        = switchList close.length (Stochastic.downMask close window stoch_window)
          (Stochastic.price close) from rfl,
      switchList_mem]
    constructor
    · rintro ⟨h1, h2, h3⟩
      unfold Stochastic.downMask at h2
      simp only [Bool.and_eq_true] at h2
      obtain ⟨⟨hk80, hprev⟩, hdk⟩ := h2
      unfold fgt at hk80 hprev
      obtain ⟨k, hk, hk2⟩ := (flt_left_iff (hK t) 80).mp hk80
      obtain ⟨pk, pd, hpk, hpd, hpp⟩ := (flt_both_iff (hKs t) (hDs t)).mp hprev
      obtain ⟨d, a, hDd, hKa, had⟩ := (flt_both_iff (hD t) (hK t)).mp hdk
      rw [hk] at hKa
      injection hKa with he
      subst he
      exact ⟨h1, h3, k, d, pk, pd, hk, hDd, hpk, hpd, hk2, hpp, had⟩
    · rintro ⟨h1, h3, k, d, pk, pd, hk, hd, hpk, hpd, hk2, hpp, hkd⟩
      refine ⟨h1, ?_, h3⟩
      unfold Stochastic.downMask
      simp only [Bool.and_eq_true]
      unfold fgt
      exact ⟨⟨by rw [hk, flt_fin_iff]; exact hk2, by rw [hpd, hpk, flt_fin_iff]; exact hpp⟩,
        by rw [hk, hd, flt_fin_iff]; exact hkd⟩

theorem foldl_wsum (g : ℕ → ℚ) (s : ℕ → FVal) (f : ℕ → ℚ) :
    ∀ (l : List ℕ), (∀ i ∈ l, s i = fin (f i)) → ∀ q : ℚ,
      l.foldl (fun acc i => fadd acc (fmul (fin (g i)) (s i))) (fin q)
        = fin (q + (l.map (fun i => g i * f i)).sum) := by
  intro l
  induction l with
  | nil => intro _ q; simp
  | cons a rest ih =>
      intro h q
      rw [List.foldl_cons, h a (List.mem_cons_self ..), fmul_fin, fadd_fin,
        List.map_cons, List.sum_cons, ih (fun i hi => h i (List.mem_cons_of_mem _ hi))]
      congr 1
      ring

theorem foldl_addf_eq (g : ℕ → ℚ) : ∀ (l : List ℕ) (q : ℚ),
    l.foldl (fun acc i => acc + g i) q = q + (l.map g).sum := by
  intro l
  induction l with
  | nil => intro q; simp
  | cons a rest ih =>
      intro q
      rw [List.foldl_cons, List.map_cons, List.sum_cons, ih]
      ring

/-- Closed form of the exponentially weighted mean over the price
series: the weighted mean of all prices so far, the price j bars old
carrying weight (1 - a) ^ age. -/
theorem ewmMean_toSeries (close : List ℚ) (a : ℚ) (t : ℕ) (ht : t < close.length)
    (ha : 0 ≤ 1 - a) :
    ewmMean a (toSeries close) t
      = fin ((((List.range (t + 1)).map (fun j => (1 - a) ^ (t - j) * close.getD j 0)).sum)
          / (((List.range (t + 1)).map (fun j => (1 - a) ^ (t - j))).sum)) := by
  have hmem : ∀ i ∈ List.range (t + 1), toSeries close i = fin (close.getD i 0) := by
    intro i hi
    unfold toSeries
    rw [if_pos (by have := List.mem_range.mp hi; omega)]
  have hfilter : (List.range (t + 1)).filter (fun i => !(isNan (toSeries close i)))
      = List.range (t + 1) := by
    apply List.filter_eq_self.mpr
    intro i hi
    rw [hmem i hi]
    rfl
  have hden : 0 < ((List.range (t + 1)).map (fun j => (1 - a) ^ (t - j))).sum := by
    rw [List.range_succ, List.map_append, List.sum_append]
    have h1 : 0 ≤ ((List.range t).map (fun j => (1 - a) ^ (t - j))).sum := by
      apply List.sum_nonneg
      intro x hx
      obtain ⟨j, _, hj⟩ := List.mem_map.mp hx
      rw [← hj]
      exact pow_nonneg ha _
    simp only [List.map_cons, List.map_nil, List.sum_cons, List.sum_nil, Nat.sub_self, pow_zero]
    linarith
  unfold ewmMean
  simp only [hfilter]
  rw [if_neg (by simp)]
  rw [foldl_wsum (fun i => (1 - a) ^ (t - i)) (toSeries close) (fun i => close.getD i 0)
      (List.range (t + 1)) hmem 0,
    foldl_addf_eq (fun i => (1 - a) ^ (t - i)) (List.range (t + 1)) 0]
  rw [zero_add, zero_add, fdiv_fin _ _ (ne_of_gt hden)]

/-- Claim C5 as amended: the fast and slow columns are exponentially
weighted means whose positional parameter is the pandas center of mass,
giving per-bar decay factor m / (m + 1), that is a = 1 / (1 + m), not the
span interpretation a = 2 / (m + 1). -/
theorem C5_ema_com_amended (close : List ℚ) (fast_ma slow_ma : ℚ) (t : ℕ)
    (hf : 0 ≤ fast_ma) (hs : 0 ≤ slow_ma) (ht : t < close.length) :
    EMA.fast close fast_ma t
      = fin ((((List.range (t + 1)).map
            (fun j => (fast_ma / (fast_ma + 1)) ^ (t - j) * close.getD j 0)).sum)
          / (((List.range (t + 1)).map (fun j => (fast_ma / (fast_ma + 1)) ^ (t - j))).sum)) ∧
    EMA.slow close slow_ma t
      = fin ((((List.range (t + 1)).map
            (fun j => (slow_ma / (slow_ma + 1)) ^ (t - j) * close.getD j 0)).sum)
          / (((List.range (t + 1)).map (fun j => (slow_ma / (slow_ma + 1)) ^ (t - j))).sum)) := by
  constructor
  · have h0 : (1 : ℚ) + fast_ma ≠ 0 := by linarith
    have key : (1 : ℚ) - 1 / (1 + fast_ma) = fast_ma / (fast_ma + 1) := by
      rw [eq_div_iff (by linarith : (fast_ma : ℚ) + 1 ≠ 0), sub_mul, one_mul,
        add_comm fast_ma 1, div_mul_cancel₀ _ h0]
      ring
    have hnn : 0 ≤ (1 : ℚ) - 1 / (1 + fast_ma) := by
      rw [key]
      exact div_nonneg hf (by linarith)
    have := ewmMean_toSeries close (1 / (1 + fast_ma)) t ht hnn
    rw [key] at this
    exact this
  · have h0 : (1 : ℚ) + slow_ma ≠ 0 := by linarith
    have key : (1 : ℚ) - 1 / (1 + slow_ma) = slow_ma / (slow_ma + 1) := by
      rw [eq_div_iff (by linarith : (slow_ma : ℚ) + 1 ≠ 0), sub_mul, one_mul,
        add_comm slow_ma 1, div_mul_cancel₀ _ h0]
      ring
    have hnn : 0 ≤ (1 : ℚ) - 1 / (1 + slow_ma) := by
      rw [key]
      exact div_nonneg hs (by linarith)
    have := ewmMean_toSeries close (1 / (1 + slow_ma)) t ht hnn
    rw [key] at this
    exact this

/-- Witness for C5 at the default parameters on a two-row series. -/
theorem C5_witness :
    (0 : ℚ) ≤ 3 ∧ (0 : ℚ) ≤ 7 ∧ 1 < ([1, 2] : List ℚ).length ∧
    (EMA.fast [1, 2] 3 1
      = fin ((((List.range (1 + 1)).map
            (fun j => ((3 : ℚ) / (3 + 1)) ^ (1 - j) * ([1, 2] : List ℚ).getD j 0)).sum)
          / (((List.range (1 + 1)).map (fun j => ((3 : ℚ) / (3 + 1)) ^ (1 - j))).sum)) ∧
    EMA.slow [1, 2] 7 1
      = fin ((((List.range (1 + 1)).map
            (fun j => ((7 : ℚ) / (7 + 1)) ^ (1 - j) * ([1, 2] : List ℚ).getD j 0)).sum)
          / (((List.range (1 + 1)).map (fun j => ((7 : ℚ) / (7 + 1)) ^ (1 - j))).sum))) :=
  ⟨by norm_num, by norm_num, by norm_num,
    C5_ema_com_amended [1, 2] 3 7 1 (by norm_num) (by norm_num) (by norm_num)⟩

set_option maxHeartbeats 2000000 in
/-- Counterexample to C1 as stated: on the three-row series [1, 2, 3]
the Ichimoku variant has no crossing event at all, so the claim requires
the side to be undefined at every row, yet the cloud override already
sets row 0 to 0. -/
theorem C1_counterexample :
    Ichimoku.switch_up [1, 2, 3] 9 26 52 = [] ∧
    Ichimoku.switch_down [1, 2, 3] 9 26 52 = [] ∧
    Ichimoku.side [1, 2, 3] 9 26 52 0 = some 0 := by
  refine ⟨?_, ?_, ?_⟩ <;>
    norm_num [Ichimoku.switch_up, Ichimoku.switch_down, switchList, Ichimoku.upMask,
      Ichimoku.downMask, Ichimoku.side, Ichimoku.cloudCond, Ichimoku.cloudA, Ichimoku.cloudB,
      Ichimoku.senkou_span_a, Ichimoku.senkou_span_b, Ichimoku.tenka_sen, Ichimoku.kijun_sen,
      Ichimoku.sen, Ichimoku.price, toSeries, shiftS, rollingAgg, rollingMin, rollingMax,
      minOp, maxOp, fmin, fmax, flt, fgt, isNan, List.range_succ, List.filter, sideFF, side0]

set_option maxHeartbeats 2000000 in
/-- Counterexample to C2 as stated: with window 2 and stoch_window 2 on
[1, 2, 1, 2, 1] the code fires an up-cross at row 4, where %D is above
%K - the opposite of the claimed "%D below %K at t". -/
theorem C2_counterexample :
    Stochastic.switch_up [1, 2, 1, 2, 1] 2 2 = [(4, fin 1)] ∧
    flt (Stochastic.D [1, 2, 1, 2, 1] 2 2 4) (Stochastic.K [1, 2, 1, 2, 1] 2 4) = false ∧
    Stochastic.D [1, 2, 1, 2, 1] 2 2 4 = fin 50 ∧
    Stochastic.K [1, 2, 1, 2, 1] 2 4 = fin 0 := by
  refine ⟨?_, ?_, ?_, ?_⟩ <;>
    norm_num [Stochastic.switch_up, switchList, Stochastic.upMask, Stochastic.K, Stochastic.D,
      Stochastic.price, toSeries, shiftS, rollingAgg, rollingMean, rollingMin, rollingMax,
      minOp, maxOp, meanOp, fmin, fmax, flt, fgt, fadd, fneg, fsub, fmul, fdiv, isNan,
      List.range_succ, List.filter]

set_option maxHeartbeats 2000000 in
/-- Counterexample to C3 as stated: at row 0 of [1, 2, 3] both spans are
NaN, so the price is not strictly between them in either orientation,
yet the side is forced to 0 by the complement branch of the override. -/
theorem C3_counterexample :
    Ichimoku.side [1, 2, 3] 9 26 52 0 = some 0 ∧
    flt (Ichimoku.senkou_span_a [1, 2, 3] 9 26 0) (Ichimoku.price [1, 2, 3] 0) = false ∧
    flt (Ichimoku.price [1, 2, 3] 0) (Ichimoku.senkou_span_b [1, 2, 3] 26 52 0) = false ∧
    flt (Ichimoku.senkou_span_b [1, 2, 3] 26 52 0) (Ichimoku.price [1, 2, 3] 0) = false ∧
    flt (Ichimoku.price [1, 2, 3] 0) (Ichimoku.senkou_span_a [1, 2, 3] 9 26 0) = false := by
  refine ⟨?_, ?_, ?_, ?_, ?_⟩ <;>
    norm_num [Ichimoku.side, Ichimoku.cloudCond, Ichimoku.cloudA, Ichimoku.cloudB,
      Ichimoku.upMask, Ichimoku.downMask, Ichimoku.senkou_span_a, Ichimoku.senkou_span_b,
      Ichimoku.tenka_sen, Ichimoku.kijun_sen, Ichimoku.sen, Ichimoku.price, toSeries, shiftS,
      rollingAgg, rollingMin, rollingMax, minOp, maxOp, fmin, fmax, flt, fgt, isNan,
      List.range_succ, sideFF, side0]

set_option maxHeartbeats 2000000 in
/-- Counterexample to C4 as stated: on the integer series [9, 5, 0, 4]
with window 3 the %R value at row 3 is 100 * (5 - 4) / (5 - 0) = 20
exactly, with previous value 100 * (9 - 0) / (9 - 0) = 100.  These
values are exact in float64 as well: the quotient 1 / 5 rounds up by
less than half an ulp of 20, so 100 * (1 / 5) rounds back to exactly
20.0.  The claimed "previous above 20 and current at most 20" holds,
yet the code (strict less-than) fires no up-cross and switch_up is
empty. -/
theorem C4_counterexample :
    wr.wrCol [9, 5, 0, 4] 3 3 = fin 20 ∧
    wr.wrCol [9, 5, 0, 4] 3 2 = fin 100 ∧
    wr.switch_up [9, 5, 0, 4] 3 = [] := by
  refine ⟨?_, ?_, ?_⟩ <;>
    norm_num [wr.switch_up, switchList, wr.upMask, wr.wrCol, wr.price, toSeries, shiftS,
      rollingAgg, rollingMin, rollingMax, minOp, maxOp, fmin, fmax, flt, fgt, fadd, fneg,
      fsub, fmul, fdiv, isNan, List.range_succ, List.filter]

set_option maxHeartbeats 2000000 in
/-- Counterexample to C5 as stated: on [0, 1] with fast_ma = 3 the fast
column is 4/7, the value of a center-of-mass weighting, while the span
interpretation of the same parameter would give 2/3. -/
theorem C5_counterexample :
    EMA.fast [0, 1] 3 1 = fin (4 / 7) ∧
    spanEwmMean [0, 1] 3 1 = fin (2 / 3) ∧
    EMA.fast [0, 1] 3 1 ≠ spanEwmMean [0, 1] 3 1 := by
  refine ⟨?_, ?_, ?_⟩ <;>
    norm_num [EMA.fast, spanEwmMean, ewmMean, toSeries, isNan, List.range_succ, List.filter,
      flt, fadd, fneg, fsub, fmul, fdiv]

/-- Counterexample to C10 as stated: on [0, 1, 2] with windows 1, 1, 3
row 1 has senkou_span_b undefined but senkou_span_a defined and below
the price, so the comparison a holds, the override does not apply, and
the side stays undefined instead of the claimed 0. -/
theorem C10_counterexample :
    Ichimoku.senkou_span_b [0, 1, 2] 1 3 1 = nan ∧
    Ichimoku.senkou_span_a [0, 1, 2] 1 1 1 = fin 0 ∧
    Ichimoku.cloudA [0, 1, 2] 1 1 1 = true ∧
    Ichimoku.side [0, 1, 2] 1 1 3 1 = none := by
  refine ⟨?_, ?_, ?_, ?_⟩ <;>
    norm_num [Ichimoku.side, Ichimoku.cloudCond, Ichimoku.cloudA, Ichimoku.cloudB,
      Ichimoku.upMask, Ichimoku.downMask, Ichimoku.senkou_span_a, Ichimoku.senkou_span_b,
      Ichimoku.tenka_sen, Ichimoku.kijun_sen, Ichimoku.sen, Ichimoku.price, toSeries, shiftS,
      rollingAgg, rollingMin, rollingMax, minOp, maxOp, fmin, fmax, flt, fgt, fadd, fneg,
      fsub, fmul, fdiv, isNan, List.range_succ, sideFF, side0]
